import Mathlib

/-!
# heck-2api: stream translation engine of `src/worker.js`

A shallow embedding of `handleChatCompletions` and `createChatCompletionChunk`.

Conventions of the embedding.
* A JavaScript string is a `List Char`: a well-formed string, given by its code
  points. `+`, `startsWith` against an ASCII prefix, `split` on a newline, `trim`
  and `slice(6)` behind the six-unit ASCII data prefix act alike on code points
  and on UTF-16 code units, so they are the list operations `++`, `isPrefixOf`,
  splitting, dropping whitespace and `drop`.
* `substring(0, 10)` counts UTF-16 code units: it is `take 10` on the code units
  of the string (`utf16`), and its result is a list of code units, which may end
  in the first half of a surrogate pair.
* `Frame.chunk c` stands for the bytes `data: <JSON.stringify(c)>\n\n` handed to
  `writer.write`, and `Frame.done` for the bytes `data: [DONE]\n\n`.
* `Math.floor(Date.now() / 1000)` is read from a clock oracle: the k-th reading
  taken by the stream task is `clock k`.
* The upstream body is the list of texts that the successive `reader.read()`
  calls decode to, together with the way the stream ends: `done`, or a rejected
  read carrying an error message.
-/

namespace Heck

/-- A well-formed JavaScript string, as the list of its code points. -/
abbrev Str := List Char

/-- A JavaScript string as the list of its UTF-16 code units. -/
abbrev Utf16 := List Nat

/-! ## String primitives -/

/-- The units removed by `String.prototype.trim`: ECMAScript WhiteSpace and
LineTerminator. -/
def isJsWhitespace (c : Char) : Bool :=
  let n := c.toNat
  n == 0x09 || n == 0x0A || n == 0x0B || n == 0x0C || n == 0x0D || n == 0x20 ||
  n == 0xA0 || n == 0x1680 || (0x2000 ≤ n && n ≤ 0x200A) || n == 0x2028 ||
  n == 0x2029 || n == 0x202F || n == 0x205F || n == 0x3000 || n == 0xFEFF

/-- The UTF-16 code units of one code point: itself in the Basic Multilingual
Plane, a surrogate pair above it. -/
def utf16Units (c : Char) : Utf16 :=
  if c.toNat < 0x10000 then [c.toNat]
  else [0xD800 + (c.toNat - 0x10000) / 0x400, 0xDC00 + (c.toNat - 0x10000) % 0x400]

/-- The UTF-16 code units of a string, which is what `length`, `substring` and
indexing count. -/
def utf16 (s : Str) : Utf16 := (s.map utf16Units).flatten

/-- Leading whitespace removed. -/
def trimStart (s : Str) : Str := s.dropWhile isJsWhitespace

/-- Trailing whitespace removed. -/
def trimEnd (s : Str) : Str := (s.reverse.dropWhile isJsWhitespace).reverse

/-- `s.trim()`: whitespace removed from both ends. -/
def jsTrim (s : Str) : Str := trimEnd (trimStart s)

/-- `s.startsWith(p)`. -/
def startsWith (s p : Str) : Bool := p.isPrefixOf s

/-- `s.split('\n')`: the pieces between newlines; never an empty array. -/
def splitNewline : Str → List Str
  | [] => [[]]
  | c :: cs =>
    if c = '\n' then [] :: splitNewline cs
    else
      match splitNewline cs with
      | [] => [[c]]
      | l :: ls => (c :: l) :: ls

/-! ## Chunks and frames -/

/-- The `delta` object of a chunk: each key is present (`some`) or absent. -/
structure Delta where
  content : Option Str := none
  reasoning_content : Option Str := none
deriving DecidableEq, Repr

/-- The object built for one `chat.completion.chunk`. The constant fields
`object: "chat.completion.chunk"` and `index: 0` are left implicit;
`finish_reason` is `none` for `null`. -/
structure Chunk where
  id : Str
  created : Nat
  model : Str
  delta : Delta
  finish_reason : Option Str
deriving DecidableEq, Repr

/-- One `writer.write` call: a serialized chunk, or the literal `[DONE]` line. -/
inductive Frame where
  | chunk (c : Chunk)
  | done
deriving DecidableEq, Repr

/-- `createChatCompletionChunk(id, model, content, finishReason = null)`, with the
clock reading `now` for `Math.floor(Date.now() / 1000)`; a call that omits
`finishReason` passes `none` here. The delta is
`content ? { content: content } : {}`: an empty string is falsy. -/
def createChatCompletionChunk (id model : Str) (now : Nat) (content : Str)
    (finishReason : Option Str) : Chunk :=
  { id := id
    created := now
    model := model
    delta := if content ≠ [] then { content := some content } else {}
    finish_reason := finishReason }

/-! ## The stream translator -/

/-- What the stream task closes over: `requestId`, `requestModel`, and the clock. -/
structure Env where
  requestId : Str
  requestModel : Str
  clock : Nat → Nat

/-- The loop variables other than `buffer`: the `isReasoning` flag, the number of
clock readings taken so far, and the frames written to the client so far. -/
structure Proto where
  isReasoning : Bool
  ticks : Nat
  written : List Frame
deriving DecidableEq, Repr

/-- The SSE data prefix tested by `line.startsWith('data: ')`. -/
def dataPrefix : Str := "data: ".toList

/-- The prefix tested by `dataStr.startsWith('\x7b"error":')`. -/
def errorPrefix : Str := "\x7b\"error\":".toList

/-- The markers dropped by the first test of the line loop. -/
def ignoredMarkers : List Str :=
  ["[ANSWER_DONE]".toList, "[RELATE_Q_START]".toList, "[RELATE_Q_DONE]".toList]

/-- `await writer.write(...)` of a chunk that took one clock reading. -/
def Proto.write (st : Proto) (c : Chunk) : Proto :=
  { st with ticks := st.ticks + 1, written := st.written ++ [Frame.chunk c] }

/-- The body of `for (const line of lines)`. -/
def processLine (env : Env) (st : Proto) (line : Str) : Proto :=
  if startsWith line dataPrefix then
    let dataStr := jsTrim (line.drop 6)
    if dataStr ∈ ignoredMarkers then st
    else if dataStr = "[REASON_START]".toList then { st with isReasoning := true }
    else if dataStr = "[REASON_DONE]".toList then { st with isReasoning := false }
    else if dataStr = "[ANSWER_START]".toList then st
    else if dataStr = "[ERROR]".toList then st
    else if startsWith dataStr errorPrefix then
      st.write (createChatCompletionChunk env.requestId env.requestModel (env.clock st.ticks)
        ("\n[Error: ".toList ++ dataStr ++ "]".toList) (some "stop".toList))
    else if st.isReasoning then
      st.write
        { id := env.requestId
          created := env.clock st.ticks
          model := env.requestModel
          delta := { reasoning_content := some dataStr }
          finish_reason := none }
    else
      st.write (createChatCompletionChunk env.requestId env.requestModel (env.clock st.ticks)
        dataStr none)
  else st

/-- All loop variables of the stream task. -/
structure Loop where
  buffer : Str
  proto : Proto
deriving DecidableEq, Repr

/-- The state before the first read: `buffer = ""`, `isReasoning = false`,
nothing written. -/
def Loop.init : Loop := { buffer := [], proto := { isReasoning := false, ticks := 0, written := [] } }

/-- One iteration of `while (true)` for a read that decoded to `value`:
`buffer += value; lines = buffer.split('\n'); buffer = lines.pop() || "";`
then the line loop. -/
def onRead (env : Env) (st : Loop) (value : Str) : Loop :=
  let lines := splitNewline (st.buffer ++ value)
  { buffer := lines.getLast?.getD []
    proto := lines.dropLast.foldl (processLine env) st.proto }

/-- The loop run over the successive successful reads. -/
def runReads (env : Env) (reads : List Str) : Loop :=
  reads.foldl (onRead env) Loop.init

/-- An upstream body: the texts of the successful reads, then either `done`
(`error = none`) or a read that rejects with an error of message `msg`
(`error = some msg`). -/
structure Upstream where
  reads : List Str
  error : Option Str := none

/-- Everything the stream task writes before `writer.close()`: after a clean end
the `[DONE]` line; in the `catch` branch one chunk built from `e.message`. -/
def streamFrames (env : Env) (up : Upstream) : List Frame :=
  let st := runReads env up.reads
  match up.error with
  | none => st.proto.written ++ [Frame.done]
  | some msg =>
    st.proto.written ++
      [Frame.chunk (createChatCompletionChunk env.requestId env.requestModel
        (env.clock st.proto.ticks) ("\n[Stream Error: ".toList ++ msg ++ "]".toList)
        (some "stop".toList))]

/-! ## Marker classes used to state the properties -/

/-- The seven bracketed control tokens that the line loop answers with `continue`. -/
def controlTokens : List Str :=
  ["[ANSWER_DONE]".toList, "[RELATE_Q_START]".toList, "[RELATE_Q_DONE]".toList,
   "[REASON_START]".toList, "[REASON_DONE]".toList, "[ANSWER_START]".toList,
   "[ERROR]".toList]

/-- The payload of a data line: the text after the prefix, whitespace-trimmed. -/
def payload (line : Str) : Str := jsTrim (line.drop 6)

/-- A line that starts with the data prefix and whose payload is no control token. -/
def isChunkLine (line : Str) : Bool :=
  startsWith line dataPrefix && !decide (payload line ∈ controlTokens)

/-- A data line whose payload is the `[REASON_START]` marker. -/
def isReasonStartLine (line : Str) : Bool :=
  startsWith line dataPrefix && decide (payload line = "[REASON_START]".toList)

/-- A data line whose payload is the `[REASON_DONE]` marker. -/
def isReasonDoneLine (line : Str) : Bool :=
  startsWith line dataPrefix && decide (payload line = "[REASON_DONE]".toList)

/-- The text made of the given lines, each terminated by a newline, followed by
an unterminated rest. -/
def unlines (lines : List Str) (rest : Str) : Str :=
  (lines.map (fun l => l ++ ['\n'])).flatten ++ rest

/-- The six-line stream of the end-to-end example, as one text. -/
def sixLines : Str :=
  ("data: [REASON_START]\ndata: thinking\ndata: [REASON_DONE]\n" ++
    "data: [ANSWER_START]\ndata: hello\ndata: [ANSWER_DONE]\n").toList

/-- An environment for concrete runs. -/
def demoEnv : Env :=
  { requestId := "req-1".toList, requestModel := "gpt-4o".toList, clock := fun k => 1700000000 + k }

/-- The chunk written for the line `data: thinking` in state REASONING under
`demoEnv` when no clock reading has been taken yet. -/
def c2WitnessChunk : Chunk :=
  { id := demoEnv.requestId, created := demoEnv.clock 0, model := demoEnv.requestModel,
    delta := { reasoning_content := some "thinking".toList }, finish_reason := none }

/-! ## The prompt normalizer -/

/-- One element of `body.messages`. -/
structure Message where
  role : Str
  content : Str
deriving DecidableEq, Repr

/-- The variables `fullPrompt` and `lastUserMsg` of the message loop. -/
structure PromptAcc where
  fullPrompt : Str
  lastUserMsg : Str
deriving DecidableEq, Repr

/-- The body of `for (const msg of body.messages)`. -/
def promptStep (acc : PromptAcc) (msg : Message) : PromptAcc :=
  if msg.role = "system".toList then
    { acc with fullPrompt := acc.fullPrompt ++ ("[System]: ".toList ++ msg.content ++ ['\n']) }
  else if msg.role = "user".toList then
    { fullPrompt := acc.fullPrompt ++ ("[User]: ".toList ++ msg.content ++ ['\n'])
      lastUserMsg := msg.content }
  else if msg.role = "assistant".toList then
    { acc with fullPrompt := acc.fullPrompt ++ ("[Assistant]: ".toList ++ msg.content ++ ['\n']) }
  else acc

/-- The message loop, from `fullPrompt = ""` and `lastUserMsg = ""`. -/
def flattenMessages (messages : List Message) : PromptAcc :=
  messages.foldl promptStep { fullPrompt := [], lastUserMsg := [] }

/-- The constant `question = fullPrompt.trim()`. -/
def question (messages : List Message) : Str :=
  jsTrim (flattenMessages messages).fullPrompt

/-- The constant `sessionTitle = lastUserMsg.substring(0, 10) || "Chat"`. -/
def sessionTitle (messages : List Message) : Utf16 :=
  let t := (utf16 (flattenMessages messages).lastUserMsg).take 10
  if t ≠ [] then t else utf16 "Chat".toList

/-- Specification of the prompt: the line contributed by one message, nothing for
a role other than the three recognized ones. -/
def promptLine (msg : Message) : Str :=
  if msg.role = "system".toList then "[System]: ".toList ++ msg.content ++ ['\n']
  else if msg.role = "user".toList then "[User]: ".toList ++ msg.content ++ ['\n']
  else if msg.role = "assistant".toList then "[Assistant]: ".toList ++ msg.content ++ ['\n']
  else []

/-- Specification of the title seed: the content of the last message of role
`user`, when there is one. -/
def lastUserContent (messages : List Message) : Option Str :=
  ((messages.filter (fun m => decide (m.role = "user".toList))).getLast?).map Message.content

/-! ## Model resolution -/

/-- The table `CONFIG.MODEL_MAP`: its own keys with their values, in source order. -/
def MODEL_MAP : List (Str × Str) :=
  [ ("gpt-4o-mini".toList, "openai/gpt-4o-mini".toList),
    ("gpt-4o".toList, "openai/chatgpt-4o-latest".toList),
    ("gpt-5-mini".toList, "openai/gpt-5-mini".toList),
    ("gpt-5-nano".toList, "openai/gpt-5-nano".toList),
    ("deepseek-r1".toList, "deepseek/deepseek-r1".toList),
    ("deepseek-v3".toList, "deepseek/deepseek-chat".toList),
    ("gemini-2.5-flash".toList, "google/gemini-2.5-flash-preview".toList),
    ("claude-3.7-sonnet".toList, "anthropic/claude-3.7-sonnet".toList),
    ("grok-3-mini".toList, "x-ai/grok-3-mini-beta".toList),
    ("llama-4-scout".toList, "meta-llama/llama-4-scout".toList) ]

/-- The constant `CONFIG.DEFAULT_MODEL`. -/
def DEFAULT_MODEL : Str := "openai/gpt-4o-mini".toList

/-- The property names that an object literal inherits from `Object.prototype`;
each of them reads as a function or an object, never as `undefined`. -/
def objectPrototypeKeys : List Str :=
  [ "constructor".toList, "hasOwnProperty".toList, "isPrototypeOf".toList,
    "propertyIsEnumerable".toList, "toLocaleString".toList, "toString".toList,
    "valueOf".toList, "__proto__".toList, "__defineGetter__".toList,
    "__defineSetter__".toList, "__lookupGetter__".toList, "__lookupSetter__".toList ]

/-- The values that the expressions of the model resolution can take. -/
inductive JsVal where
  | undefined
  | str (s : Str)
  | inherited (name : Str)
deriving DecidableEq, Repr

/-- The property read `CONFIG.MODEL_MAP[key]`: an own key gives its string; a name
found on the prototype gives the inherited member; anything else `undefined`. -/
def modelMapGet (key : Str) : JsVal :=
  match MODEL_MAP.lookup key with
  | some v => JsVal.str v
  | none => if key ∈ objectPrototypeKeys then JsVal.inherited key else JsVal.undefined

/-- JavaScript truthiness, as used by `||` and `!`. -/
def JsVal.truthy : JsVal → Bool
  | JsVal.undefined => false
  | JsVal.str s => decide (s ≠ [])
  | JsVal.inherited _ => true

/-- The expression `Object.values(CONFIG.MODEL_MAP)`. -/
def modelMapValues : List JsVal := MODEL_MAP.map (fun kv => JsVal.str kv.2)

/-- The variable `requestModel = body.model || "gpt-4o-mini"` for a string model. -/
def requestModelOf (bodyModel : Str) : Str :=
  if bodyModel ≠ [] then bodyModel else "gpt-4o-mini".toList

/-- The variable `upstreamModel` after step 1 of `handleChatCompletions`. -/
def resolveModel (bodyModel : Str) : JsVal :=
  let requestModel := requestModelOf bodyModel
  let upstreamModel :=
    if (modelMapGet requestModel).truthy then modelMapGet requestModel
    else JsVal.str requestModel
  if !decide (upstreamModel ∈ modelMapValues) && !(modelMapGet requestModel).truthy then
    JsVal.str DEFAULT_MODEL
  else upstreamModel

/-! ## Truncation of the upstream text -/

/-- Specification of the truncated stream: the text up to and including its last
newline, and the empty text when it holds no newline. -/
def truncateAfterLastNewline (text : Str) : Str :=
  (text.reverse.dropWhile (fun c => c != '\n')).reverse

/-! ## Framing lemmas -/

theorem splitNewline_ne_nil (s : Str) : splitNewline s ≠ [] := by
  induction s with
  | nil => simp [splitNewline]
  | cons c cs ih =>
    unfold splitNewline
    split
    · simp
    · split <;> simp

theorem splitNewline_cons_newline (cs : Str) :
    splitNewline ('\n' :: cs) = [] :: splitNewline cs := by
  rw [splitNewline]; simp

theorem splitNewline_cons_other (c : Char) (cs l : Str) (ls : List Str) (hc : c ≠ '\n')
    (h : splitNewline cs = l :: ls) : splitNewline (c :: cs) = (c :: l) :: ls := by
  rw [splitNewline]; simp [hc, h]

/-- Splitting a text that continues: the complete lines of the first part are
kept, and the split goes on from its unterminated rest. -/
theorem splitNewline_append (a b : Str) :
    splitNewline (a ++ b) =
      (splitNewline a).dropLast ++ splitNewline ((splitNewline a).getLast?.getD [] ++ b) := by
  induction a with
  | nil => simp [splitNewline]
  | cons c cs ih =>
    obtain ⟨l, ls, hls⟩ := List.exists_cons_of_ne_nil (splitNewline_ne_nil cs)
    by_cases hc : c = '\n'
    · subst hc
      rw [List.cons_append, splitNewline_cons_newline, splitNewline_cons_newline, ih, hls]
      simp [List.getLast?_cons_cons]
    · rw [hls] at ih
      rw [splitNewline_cons_other c cs l ls hc hls, List.cons_append]
      cases ls with
      | nil =>
        simp only [List.dropLast_single, List.getLast?_singleton, Option.getD_some,
          List.nil_append] at ih ⊢
        obtain ⟨l2, ls2, h2⟩ := List.exists_cons_of_ne_nil (splitNewline_ne_nil (l ++ b))
        rw [h2] at ih
        rw [splitNewline_cons_other c _ l2 ls2 hc ih, List.cons_append,
          splitNewline_cons_other c _ l2 ls2 hc h2]
      | cons l1 ls1 =>
        simp only [List.dropLast_cons₂, List.getLast?_cons_cons, List.cons_append] at ih ⊢
        rw [splitNewline_cons_other c _ _ _ hc ih]


theorem onRead_append (env : Env) (st : Loop) (a b : Str) :
    onRead env (onRead env st a) b = onRead env st (a ++ b) := by
  have hne := splitNewline_ne_nil ((splitNewline (st.buffer ++ a)).getLast?.getD [] ++ b)
  simp only [onRead]
  rw [← List.append_assoc, splitNewline_append (st.buffer ++ a) b,
    List.dropLast_append_of_ne_nil _ hne, List.getLast?_append_of_ne_nil _ hne, List.foldl_append]

theorem foldl_onRead (env : Env) (st : Loop) (a : Str) (rs : List Str) :
    rs.foldl (onRead env) (onRead env st a) = onRead env st (a ++ rs.flatten) := by
  induction rs generalizing a with
  | nil => simp
  | cons r rs ih => rw [List.foldl_cons, onRead_append, ih, List.flatten_cons, List.append_assoc]

/-- Any sequence of reads leaves the loop where one read of the whole text does. -/
theorem runReads_flatten (env : Env) (reads : List Str) :
    runReads env reads = runReads env [reads.flatten] := by
  cases reads with
  | nil => rfl
  | cons r rs =>
    simp only [runReads, List.foldl_cons, List.foldl_nil, List.flatten_cons]
    exact foldl_onRead env Loop.init r rs

theorem splitNewline_no_newline (s : Str) (h : '\n' ∉ s) : splitNewline s = [s] := by
  induction s with
  | nil => rfl
  | cons c cs ih =>
    simp only [List.mem_cons, not_or] at h
    exact splitNewline_cons_other c cs cs [] (fun e => h.1 e.symm) (ih h.2)

theorem splitNewline_line (l t : Str) (h : '\n' ∉ l) :
    splitNewline (l ++ '\n' :: t) = l :: splitNewline t := by
  induction l with
  | nil => exact splitNewline_cons_newline t
  | cons c cs ih =>
    simp only [List.mem_cons, not_or] at h
    exact splitNewline_cons_other c _ _ _ (fun e => h.1 e.symm) (ih h.2)

/-- The split of a text given by its lines and its unterminated rest. -/
theorem splitNewline_unlines (lines : List Str) (rest : Str)
    (hl : ∀ l ∈ lines, '\n' ∉ l) (hr : '\n' ∉ rest) :
    splitNewline (unlines lines rest) = lines ++ [rest] := by
  induction lines with
  | nil => simpa [unlines] using splitNewline_no_newline rest hr
  | cons l ls ih =>
    have h1 : unlines (l :: ls) rest = l ++ '\n' :: unlines ls rest := by
      simp [unlines]
    rw [h1, splitNewline_line l _ (hl l (List.mem_cons_self _ _)),
      ih (fun x hx => hl x (List.mem_cons_of_mem _ hx))]
    rfl

/-- One read of a whole text: every terminated line goes through the line loop,
in order, and the rest stays in the buffer. -/
theorem runReads_unlines (env : Env) (reads : List Str) (lines : List Str) (rest : Str)
    (hl : ∀ l ∈ lines, '\n' ∉ l) (hr : '\n' ∉ rest) (h : reads.flatten = unlines lines rest) :
    runReads env reads =
      { buffer := rest, proto := lines.foldl (processLine env) Loop.init.proto } := by
  rw [runReads_flatten, h]
  simp only [runReads, List.foldl_cons, List.foldl_nil, onRead, Loop.init, List.nil_append]
  rw [splitNewline_unlines lines rest hl hr]
  simp


/-! ## The line loop, case by case -/

theorem mem_controlTokens (p : Str) :
    p ∈ controlTokens ↔
      p ∈ ignoredMarkers ∨ p = "[REASON_START]".toList ∨ p = "[REASON_DONE]".toList ∨
        p = "[ANSWER_START]".toList ∨ p = "[ERROR]".toList := by
  simp only [controlTokens, ignoredMarkers, List.mem_cons, List.mem_singleton, List.not_mem_nil,
    or_false, or_assoc]

/-- A line without the data prefix is skipped. -/
theorem processLine_skips_plain_line (env : Env) (st : Proto) (line : Str)
    (h : startsWith line dataPrefix = false) : processLine env st line = st := by
  simp [processLine, h]

/-- A data line whose payload is no control token writes one chunk. -/
theorem processLine_chunk (env : Env) (st : Proto) (line : Str)
    (hp : startsWith line dataPrefix = true) (hc : payload line ∉ controlTokens) :
    processLine env st line =
      st.write
        (if startsWith (payload line) errorPrefix then
          createChatCompletionChunk env.requestId env.requestModel (env.clock st.ticks)
            ("\n[Error: ".toList ++ payload line ++ "]".toList) (some "stop".toList)
        else if st.isReasoning then
          { id := env.requestId
            created := env.clock st.ticks
            model := env.requestModel
            delta := { reasoning_content := some (payload line) }
            finish_reason := none }
        else
          createChatCompletionChunk env.requestId env.requestModel (env.clock st.ticks)
            (payload line) none) := by
  rw [mem_controlTokens] at hc
  simp only [not_or] at hc
  obtain ⟨h1, h2, h3, h4, h5⟩ := hc
  unfold payload at h1 h2 h3 h4 h5 ⊢
  simp only [processLine, hp, if_true, h1, h2, h3, h4, h5, if_false]
  split
  · rfl
  · split <;> rfl

/-- A data line whose payload is a control token writes nothing; only the two
reasoning markers touch the flag. -/
theorem processLine_control (env : Env) (st : Proto) (line : Str)
    (hp : startsWith line dataPrefix = true) (hc : payload line ∈ controlTokens) :
    processLine env st line =
      if payload line = "[REASON_START]".toList then { st with isReasoning := true }
      else if payload line = "[REASON_DONE]".toList then { st with isReasoning := false }
      else st := by
  rw [mem_controlTokens] at hc
  unfold payload at hc ⊢
  simp only [processLine, hp, if_true]
  by_cases h1 : jsTrim (List.drop 6 line) ∈ ignoredMarkers
  · have n2 : jsTrim (List.drop 6 line) ≠ "[REASON_START]".toList := by
      intro e; rw [e] at h1; revert h1; decide
    have n3 : jsTrim (List.drop 6 line) ≠ "[REASON_DONE]".toList := by
      intro e; rw [e] at h1; revert h1; decide
    rw [if_pos h1, if_neg n2, if_neg n3]
  · simp only [h1, if_false]
    by_cases h2 : jsTrim (List.drop 6 line) = "[REASON_START]".toList
    · rw [if_pos h2, if_pos h2]
    · simp only [h2, if_false]
      by_cases h3 : jsTrim (List.drop 6 line) = "[REASON_DONE]".toList
      · rw [if_pos h3, if_pos h3]
      · simp only [h3, if_false]
        rcases hc with h | h | h | h | h
        · exact absurd h h1
        · exact absurd h h2
        · exact absurd h h3
        · rw [if_pos h]
        · rw [if_neg (by rw [h]; decide), if_pos h]


theorem write_ne_self (st : Proto) (c : Chunk) : st.write c ≠ st := by
  intro h
  have := congrArg Proto.ticks h
  simp [Proto.write] at this

theorem write_injective (st : Proto) (c d : Chunk) (h : st.write c = st.write d) : c = d := by
  have := congrArg Proto.written h
  simpa [Proto.write] using this

theorem isChunkLine_iff (line : Str) :
    isChunkLine line = true ↔
      startsWith line dataPrefix = true ∧ payload line ∉ controlTokens := by
  simp [isChunkLine]

/-- A line that is no chunk line leaves the counters and the output as they are. -/
theorem processLine_silent (env : Env) (st : Proto) (line : Str)
    (h : isChunkLine line = false) :
    (processLine env st line).ticks = st.ticks ∧
      (processLine env st line).written = st.written := by
  by_cases hp : startsWith line dataPrefix = true
  · have hc : payload line ∈ controlTokens := by
      by_contra hc
      rw [(isChunkLine_iff line).mpr ⟨hp, hc⟩] at h
      exact Bool.noConfusion h
    rw [processLine_control env st line hp hc]
    split
    · exact ⟨rfl, rfl⟩
    · split <;> exact ⟨rfl, rfl⟩
  · rw [processLine_skips_plain_line env st line (by simpa using hp)]
    exact ⟨rfl, rfl⟩

/-- A line writes a chunk only when it is a chunk line, and then the chunk is the
one of `processLine_chunk`. -/
theorem processLine_eq_write (env : Env) (st : Proto) (line : Str) (c : Chunk)
    (h : processLine env st line = st.write c) :
    startsWith line dataPrefix = true ∧ payload line ∉ controlTokens := by
  by_cases hk : isChunkLine line = true
  · exact (isChunkLine_iff line).mp hk
  · have := (processLine_silent env st line (by simpa using hk)).1
    rw [h] at this
    simp [Proto.write] at this

/-- The frames written by a run of the line loop: one chunk per chunk line. -/
theorem foldl_processLine_written (env : Env) (lines : List Str) (st : Proto) :
    ∃ chunks : List Chunk,
      (lines.foldl (processLine env) st).written = st.written ++ chunks.map Frame.chunk ∧
      (lines.foldl (processLine env) st).ticks = st.ticks + chunks.length ∧
      List.Forall₂ (fun line c => ∃ s : Proto, processLine env s line = s.write c)
        (lines.filter isChunkLine) chunks := by
  induction lines generalizing st with
  | nil => exact ⟨[], by simp⟩
  | cons l ls ih =>
    obtain ⟨cs, hw, ht, hf⟩ := ih (processLine env st l)
    by_cases hk : isChunkLine l = true
    · obtain ⟨hp, hc⟩ := (isChunkLine_iff l).mp hk
      have hstep := processLine_chunk env st l hp hc
      generalize hcdef : (if startsWith (payload l) errorPrefix = true then _ else _ : Chunk) = c
        at hstep
      refine ⟨c :: cs, ?_, ?_, ?_⟩
      · rw [List.foldl_cons, hw, hstep]; simp [Proto.write]
      · rw [List.foldl_cons, ht, hstep]; simp [Proto.write]; omega
      · rw [List.filter_cons_of_pos hk]
        exact List.Forall₂.cons ⟨st, hstep⟩ hf
    · have hk2 : isChunkLine l = false := by simpa using hk
      obtain ⟨h1, h2⟩ := processLine_silent env st l hk2
      refine ⟨cs, ?_, ?_, ?_⟩
      · rw [List.foldl_cons, hw, h2]
      · rw [List.foldl_cons, ht, h1]
      · rw [List.filter_cons_of_neg hk]
        exact hf

/-- C1: after a clean end of the upstream, the frames written are one chunk frame
for each newline-terminated line that starts with the data prefix and whose
payload is none of the seven control tokens, in the order of those lines, then
one final done frame; the six-line example gives a reasoning chunk, a content
chunk and the sentinel. -/
theorem stream_frames_clean_end (env : Env) (reads lines : List Str) (rest : Str)
    (hl : ∀ l ∈ lines, '\n' ∉ l) (hr : '\n' ∉ rest)
    (h : reads.flatten = unlines lines rest) :
    (∃ chunks : List Chunk,
      streamFrames env { reads := reads, error := none } =
        chunks.map Frame.chunk ++ [Frame.done] ∧
      List.Forall₂ (fun line c => ∃ s : Proto, processLine env s line = s.write c)
        (lines.filter isChunkLine) chunks) ∧
    streamFrames env { reads := [sixLines], error := none } =
      [ Frame.chunk
          { id := env.requestId, created := env.clock 0, model := env.requestModel,
            delta := { reasoning_content := some "thinking".toList }, finish_reason := none },
        Frame.chunk
          { id := env.requestId, created := env.clock 1, model := env.requestModel,
            delta := { content := some "hello".toList }, finish_reason := none },
        Frame.done ] := by
  refine ⟨?_, rfl⟩
  obtain ⟨cs, hw, _, hf⟩ := foldl_processLine_written env lines Loop.init.proto
  refine ⟨cs, ?_, hf⟩
  simp only [streamFrames]
  rw [runReads_unlines env reads lines rest hl hr h, hw]
  rfl

/-- The clean-end property at a stream of two reads that cut a line in two. -/
theorem stream_frames_clean_end_witness :
    ∃ chunks : List Chunk,
      streamFrames demoEnv { reads := ["data: a\nx".toList, "y\ndata: b".toList], error := none } =
        chunks.map Frame.chunk ++ [Frame.done] ∧
      List.Forall₂ (fun line c => ∃ s : Proto, processLine demoEnv s line = s.write c)
        (["data: a".toList, "xy".toList].filter isChunkLine) chunks :=
  (stream_frames_clean_end demoEnv ["data: a\nx".toList, "y\ndata: b".toList]
    ["data: a".toList, "xy".toList] "data: b".toList (by decide) (by decide) (by decide)).1

/-- C3: the loop state reached (frames written, reasoning flag, clock readings
taken, carry-over buffer) does not depend on how the upstream text is cut into
reads, empty reads included: it is the state reached by one read of the whole
text; the reads `data: hel` and `lo\n` write exactly one chunk, of content
`hello`. -/
theorem framing_independent_of_reads (env : Env) (reads : List Str) :
    runReads env reads = runReads env [reads.flatten] ∧
    (runReads env ["data: hel".toList, "lo\n".toList]).proto.written =
      [ Frame.chunk
          { id := env.requestId, created := env.clock 0, model := env.requestModel,
            delta := { content := some "hello".toList }, finish_reason := none } ] :=
  ⟨runReads_flatten env reads, rfl⟩

/-- The line loop never writes the done frame. -/
theorem processLine_no_done (env : Env) (st : Proto) (line : Str)
    (h : Frame.done ∉ st.written) : Frame.done ∉ (processLine env st line).written := by
  by_cases hk : isChunkLine line = true
  · obtain ⟨hp, hc⟩ := (isChunkLine_iff line).mp hk
    rw [processLine_chunk env st line hp hc]
    simpa [Proto.write] using h
  · rw [(processLine_silent env st line (by simpa using hk)).2]
    exact h

theorem foldl_processLine_no_done (env : Env) (lines : List Str) (st : Proto)
    (h : Frame.done ∉ st.written) :
    Frame.done ∉ (lines.foldl (processLine env) st).written := by
  induction lines generalizing st with
  | nil => exact h
  | cons l ls ih => exact ih _ (processLine_no_done env st l h)

theorem runReads_no_done (env : Env) (reads : List Str) :
    Frame.done ∉ (runReads env reads).proto.written := by
  have key : ∀ (rs : List Str) (st : Loop), Frame.done ∉ st.proto.written →
      Frame.done ∉ (rs.foldl (onRead env) st).proto.written := by
    intro rs
    induction rs with
    | nil => intro st h; exact h
    | cons r rs ih =>
      intro st h
      exact ih _ (foldl_processLine_no_done env _ st.proto h)
  exact key reads Loop.init (by simp [Loop.init])

/-- C4 (the code at a failing read): when a read raises an error, the frames are
those already written followed by one chunk of content `\n[Stream Error: msg]`
and finish reason `stop`, and that chunk is the last frame: no done frame is
written anywhere, as for the stream whose first read fails with `boom`. -/
theorem stream_error_writes_no_done (env : Env) (reads : List Str) (msg : Str) :
    streamFrames env { reads := reads, error := some msg } =
      (runReads env reads).proto.written ++
        [ Frame.chunk
            { id := env.requestId, created := env.clock (runReads env reads).proto.ticks,
              model := env.requestModel,
              delta := { content := some ("\n[Stream Error: ".toList ++ msg ++ "]".toList) },
              finish_reason := some "stop".toList } ] ∧
    Frame.done ∉ streamFrames env { reads := reads, error := some msg } ∧
    streamFrames demoEnv { reads := [], error := some "boom".toList } =
      [ Frame.chunk
          { id := demoEnv.requestId, created := demoEnv.clock 0, model := demoEnv.requestModel,
            delta := { content := some "\n[Stream Error: boom]".toList },
            finish_reason := some "stop".toList } ] := by
  have h1 : streamFrames env { reads := reads, error := some msg } =
      (runReads env reads).proto.written ++
        [ Frame.chunk
            { id := env.requestId, created := env.clock (runReads env reads).proto.ticks,
              model := env.requestModel,
              delta := { content := some ("\n[Stream Error: ".toList ++ msg ++ "]".toList) },
              finish_reason := some "stop".toList } ] := by
    simp [streamFrames, createChatCompletionChunk]
  refine ⟨h1, ?_, by decide⟩
  rw [h1]
  simpa using runReads_no_done env reads

/-- The chunk that a line wrote, read back from the step. -/
theorem processLine_written_chunk (env : Env) (st : Proto) (line : Str) (c : Chunk)
    (h : processLine env st line = st.write c) :
    c =
      (if startsWith (payload line) errorPrefix then
        createChatCompletionChunk env.requestId env.requestModel (env.clock st.ticks)
          ("\n[Error: ".toList ++ payload line ++ "]".toList) (some "stop".toList)
      else if st.isReasoning then
        { id := env.requestId
          created := env.clock st.ticks
          model := env.requestModel
          delta := { reasoning_content := some (payload line) }
          finish_reason := none }
      else
        createChatCompletionChunk env.requestId env.requestModel (env.clock st.ticks)
          (payload line) none) := by
  obtain ⟨hp, hc⟩ := processLine_eq_write env st line c h
  rw [processLine_chunk env st line hp hc] at h
  exact (write_injective st _ _ h).symm

/-- The helper `createChatCompletionChunk` never sets `reasoning_content`. -/
theorem createChatCompletionChunk_no_reasoning (id model : Str) (now : Nat) (content : Str)
    (fr : Option Str) :
    (createChatCompletionChunk id model now content fr).delta.reasoning_content = none := by
  unfold createChatCompletionChunk
  by_cases h : content = [] <;> simp [h]

/-- C2 (as stated, refuted): after `[REASON_START]` the state is REASONING, and
the error payload line that follows writes a chunk whose delta has a `content`
field and no `reasoning_content` field. -/
theorem reasoning_error_chunk_carries_content :
    (["data: [REASON_START]".toList].foldl (processLine demoEnv) Loop.init.proto).isReasoning
        = true ∧
    processLine demoEnv
        (["data: [REASON_START]".toList].foldl (processLine demoEnv) Loop.init.proto)
        "data: \x7b\"error\":1\x7d".toList =
      (["data: [REASON_START]".toList].foldl (processLine demoEnv) Loop.init.proto).write
        { id := demoEnv.requestId, created := demoEnv.clock 0, model := demoEnv.requestModel,
          delta := { content := some "\n[Error: \x7b\"error\":1\x7d]".toList,
                     reasoning_content := none },
          finish_reason := some "stop".toList } := by
  decide

/-- C2 (amended): for every sequence of lines and the state it leads to, a chunk
written in state REASONING by a line whose payload is no error payload has the
payload as its `reasoning_content` and no `content` field, and a chunk written
in state NORMAL has no `reasoning_content` field. -/
theorem delta_field_follows_state (env : Env) (lines : List Str) (line : Str) (c : Chunk)
    (h : processLine env (lines.foldl (processLine env) Loop.init.proto) line =
      (lines.foldl (processLine env) Loop.init.proto).write c) :
    ((lines.foldl (processLine env) Loop.init.proto).isReasoning = true →
      startsWith (payload line) errorPrefix = false →
      c.delta.reasoning_content = some (payload line) ∧ c.delta.content = none) ∧
    ((lines.foldl (processLine env) Loop.init.proto).isReasoning = false →
      c.delta.reasoning_content = none) := by
  generalize lines.foldl (processLine env) Loop.init.proto = st at h ⊢
  have hc := processLine_written_chunk env st line c h
  constructor
  · intro hr he
    rw [he, hr] at hc
    subst hc
    exact ⟨rfl, rfl⟩
  · intro hr
    rw [hr] at hc
    subst hc
    split
    · exact createChatCompletionChunk_no_reasoning _ _ _ _ _
    · exact createChatCompletionChunk_no_reasoning _ _ _ _ _

/-- The amended field property at the line `data: thinking` after `[REASON_START]`. -/
theorem delta_field_follows_state_witness :
    c2WitnessChunk.delta.reasoning_content = some (payload "data: thinking".toList) ∧
      c2WitnessChunk.delta.content = none :=
  (delta_field_follows_state demoEnv ["data: [REASON_START]".toList] "data: thinking".toList
    c2WitnessChunk (by decide)).1 (by decide) (by decide)

/-- C5 (as stated, refuted): in state NORMAL the data line with an empty payload
writes a chunk whose delta is the empty object, not a `content` field holding
the payload. -/
theorem empty_payload_chunk_has_empty_delta :
    startsWith "data: ".toList dataPrefix = true ∧
    payload "data: ".toList = [] ∧
    payload "data: ".toList ∉ controlTokens ∧
    startsWith (payload "data: ".toList) errorPrefix = false ∧
    Loop.init.proto.isReasoning = false ∧
    processLine demoEnv Loop.init.proto "data: ".toList =
      Loop.init.proto.write
        { id := demoEnv.requestId, created := demoEnv.clock 0, model := demoEnv.requestModel,
          delta := { content := none, reasoning_content := none }, finish_reason := none } ∧
    processLine demoEnv Loop.init.proto "data: ".toList ≠
      Loop.init.proto.write
        { id := demoEnv.requestId, created := demoEnv.clock 0, model := demoEnv.requestModel,
          delta := { content := some (payload "data: ".toList), reasoning_content := none },
          finish_reason := none } := by
  decide

/-- C5 (amended): a data line whose payload is neither a control token nor an
error payload writes exactly one chunk, with finish reason null; its delta is
the payload as `reasoning_content` in state REASONING, the payload as `content`
in state NORMAL when the payload is not empty, and the empty object in state
NORMAL when the payload is empty; the state is unchanged. -/
theorem text_fragment_chunk (env : Env) (st : Proto) (line : Str)
    (hp : startsWith line dataPrefix = true) (hc : payload line ∉ controlTokens)
    (he : startsWith (payload line) errorPrefix = false) :
    processLine env st line =
      st.write
        { id := env.requestId
          created := env.clock st.ticks
          model := env.requestModel
          delta :=
            if st.isReasoning = true then { reasoning_content := some (payload line) }
            else if payload line = [] then {}
            else { content := some (payload line) }
          finish_reason := none } ∧
    (processLine env st line).isReasoning = st.isReasoning := by
  have h := processLine_chunk env st line hp hc
  rw [he] at h
  have h2 : processLine env st line =
      st.write
        { id := env.requestId
          created := env.clock st.ticks
          model := env.requestModel
          delta :=
            if st.isReasoning = true then { reasoning_content := some (payload line) }
            else if payload line = [] then {}
            else { content := some (payload line) }
          finish_reason := none } := by
    rw [h]
    congr 1
    by_cases hr : st.isReasoning = true
    · simp [hr]
    · by_cases hz : payload line = [] <;> simp [hr, hz, createChatCompletionChunk]
  exact ⟨h2, by rw [h2]; rfl⟩

/-- The text fragment property at the line `data: hello` in the initial state. -/
theorem text_fragment_chunk_witness :
    processLine demoEnv Loop.init.proto "data: hello".toList =
      Loop.init.proto.write
        { id := demoEnv.requestId
          created := demoEnv.clock Loop.init.proto.ticks
          model := demoEnv.requestModel
          delta :=
            if Loop.init.proto.isReasoning = true then
              { reasoning_content := some (payload "data: hello".toList) }
            else if payload "data: hello".toList = [] then {}
            else { content := some (payload "data: hello".toList) }
          finish_reason := none } ∧
    (processLine demoEnv Loop.init.proto "data: hello".toList).isReasoning =
      Loop.init.proto.isReasoning :=
  text_fragment_chunk demoEnv Loop.init.proto "data: hello".toList (by decide) (by decide)
    (by decide)

/-- The effect of one line on the reasoning flag. -/
theorem processLine_isReasoning (env : Env) (st : Proto) (line : Str) :
    (processLine env st line).isReasoning =
      if isReasonStartLine line = true then true
      else if isReasonDoneLine line = true then false
      else st.isReasoning := by
  by_cases hp : startsWith line dataPrefix = true
  · by_cases hc : payload line ∈ controlTokens
    · rw [processLine_control env st line hp hc]
      simp only [isReasonStartLine, isReasonDoneLine, hp, Bool.true_and, decide_eq_true_eq]
      split
      · rfl
      · split <;> rfl
    · rw [processLine_chunk env st line hp hc]
      have n1 : payload line ≠ "[REASON_START]".toList := by
        intro e; rw [e] at hc; exact hc (by decide)
      have n2 : payload line ≠ "[REASON_DONE]".toList := by
        intro e; rw [e] at hc; exact hc (by decide)
      simp only [isReasonStartLine, isReasonDoneLine, hp, Bool.true_and, decide_eq_true_eq]
      rw [if_neg n1, if_neg n2]
      rfl
  · rw [processLine_skips_plain_line env st line (by simpa using hp)]
    simp [isReasonStartLine, isReasonDoneLine, hp]

/-- The reasoning flag after a run of the line loop from any state. -/
theorem foldl_processLine_isReasoning (env : Env) (lines : List Str) (st : Proto) :
    (lines.foldl (processLine env) st).isReasoning = true ↔
      (∃ pre l post, lines = pre ++ l :: post ∧ isReasonStartLine l = true ∧
        ∀ x ∈ post, isReasonDoneLine x = false) ∨
      (st.isReasoning = true ∧ ∀ x ∈ lines, isReasonDoneLine x = false) := by
  induction lines generalizing st with
  | nil => simp
  | cons l ls ih =>
    rw [List.foldl_cons, ih (processLine env st l), processLine_isReasoning]
    constructor
    · rintro (⟨pre, x, post, rfl, hx, hpost⟩ | ⟨hst, hls⟩)
      · exact Or.inl ⟨l :: pre, x, post, rfl, hx, hpost⟩
      · by_cases hs : isReasonStartLine l = true
        · exact Or.inl ⟨[], l, ls, rfl, hs, hls⟩
        · rw [if_neg hs] at hst
          by_cases hd : isReasonDoneLine l = true
          · rw [if_pos hd] at hst
            exact Bool.noConfusion hst
          · rw [if_neg hd] at hst
            refine Or.inr ⟨hst, ?_⟩
            intro x hx
            rcases List.mem_cons.mp hx with rfl | hx
            · simpa using hd
            · exact hls x hx
    · rintro (⟨pre, x, post, heq, hx, hpost⟩ | ⟨hst, hls⟩)
      · cases pre with
        | nil =>
          simp only [List.nil_append, List.cons.injEq] at heq
          obtain ⟨rfl, rfl⟩ := heq
          exact Or.inr ⟨by rw [if_pos hx], hpost⟩
        | cons p pre =>
          simp only [List.cons_append, List.cons.injEq] at heq
          obtain ⟨rfl, rfl⟩ := heq
          exact Or.inl ⟨pre, x, post, rfl, hx, hpost⟩
      · refine Or.inr ⟨?_, fun x hx => hls x (List.mem_cons_of_mem _ hx)⟩
        have hd : isReasonDoneLine l = false := hls l (List.mem_cons_self _ _)
        by_cases hs : isReasonStartLine l = true
        · rw [if_pos hs]
        · rw [if_neg hs, hd]
          simpa using hst

/-- C6: from state NORMAL, the state after any sequence of complete lines is
REASONING exactly when some line is a `[REASON_START]` data line with no
`[REASON_DONE]` data line after it; a `[REASON_START]` line gives REASONING from
either state, a `[REASON_DONE]` line gives NORMAL from either state, and every
other line leaves the state as it is. -/
theorem reasoning_state_bracketing (env : Env) (lines : List Str) :
    ((lines.foldl (processLine env) Loop.init.proto).isReasoning = true ↔
      ∃ pre l post, lines = pre ++ l :: post ∧ isReasonStartLine l = true ∧
        ∀ x ∈ post, isReasonDoneLine x = false) ∧
    (∀ (st : Proto) (l : Str), isReasonStartLine l = true →
      (processLine env st l).isReasoning = true) ∧
    (∀ (st : Proto) (l : Str), isReasonDoneLine l = true →
      (processLine env st l).isReasoning = false) ∧
    (∀ (st : Proto) (l : Str), isReasonStartLine l = false → isReasonDoneLine l = false →
      (processLine env st l).isReasoning = st.isReasoning) := by
  refine ⟨?_, ?_, ?_, ?_⟩
  · rw [foldl_processLine_isReasoning]
    simp [Loop.init]
  · intro st l h
    rw [processLine_isReasoning, if_pos h]
  · intro st l h
    have hs : ¬ isReasonStartLine l = true := by
      intro hs
      simp only [isReasonStartLine, isReasonDoneLine, Bool.and_eq_true, decide_eq_true_eq] at h hs
      rw [hs.2] at h
      exact absurd h.2 (by decide)
    rw [processLine_isReasoning, if_neg hs, if_pos h]
  · intro st l hs hd
    rw [processLine_isReasoning, hs, hd]
    simp

theorem error_payload_not_control (p : Str) (he : startsWith p errorPrefix = true) :
    p ∉ controlTokens := by
  intro hm
  have key : ∀ t ∈ controlTokens, startsWith t errorPrefix = false := by decide
  rw [key p hm] at he
  exact Bool.noConfusion he

/-- C7: in either state, a data line whose payload begins with the error prefix
writes exactly one chunk, of content `\n[Error: ` followed by the payload and
`]` and of finish reason `stop`; the state is unchanged and the lines after it
go through the line loop as usual. -/
theorem error_payload_chunk (env : Env) (st : Proto) (line : Str)
    (hp : startsWith line dataPrefix = true)
    (he : startsWith (payload line) errorPrefix = true) :
    processLine env st line =
      st.write
        { id := env.requestId
          created := env.clock st.ticks
          model := env.requestModel
          delta := { content := some ("\n[Error: ".toList ++ payload line ++ "]".toList) }
          finish_reason := some "stop".toList } ∧
    (processLine env st line).isReasoning = st.isReasoning ∧
    ∀ rest : List Str,
      (line :: rest).foldl (processLine env) st =
        rest.foldl (processLine env)
          (st.write
            { id := env.requestId
              created := env.clock st.ticks
              model := env.requestModel
              delta := { content := some ("\n[Error: ".toList ++ payload line ++ "]".toList) }
              finish_reason := some "stop".toList }) := by
  have h := processLine_chunk env st line hp (error_payload_not_control _ he)
  rw [he, if_pos rfl] at h
  have h2 : processLine env st line =
      st.write
        { id := env.requestId
          created := env.clock st.ticks
          model := env.requestModel
          delta := { content := some ("\n[Error: ".toList ++ payload line ++ "]".toList) }
          finish_reason := some "stop".toList } := by
    rw [h]
    simp [createChatCompletionChunk]
  refine ⟨h2, by rw [h2]; rfl, ?_⟩
  intro rest
  rw [List.foldl_cons, h2]

/-- The error payload property at a quota error received in state REASONING. -/
theorem error_payload_chunk_witness :
    processLine demoEnv { isReasoning := true, ticks := 3, written := [] }
        "data: \x7b\"error\":\"quota\"\x7d\r".toList =
      Proto.write { isReasoning := true, ticks := 3, written := [] }
        { id := demoEnv.requestId
          created := demoEnv.clock 3
          model := demoEnv.requestModel
          delta := { content := some ("\n[Error: ".toList ++
            payload "data: \x7b\"error\":\"quota\"\x7d\r".toList ++ "]".toList) }
          finish_reason := some "stop".toList } :=
  (error_payload_chunk demoEnv { isReasoning := true, ticks := 3, written := [] }
    "data: \x7b\"error\":\"quota\"\x7d\r".toList (by decide) (by decide)).1

/-! ## Model resolution -/

theorem lookup_mem {k v : Str} : ∀ {l : List (Str × Str)}, l.lookup k = some v → (k, v) ∈ l
  | [], h => by simp at h
  | (a, b) :: l, h => by
    by_cases hk : k = a
    · subst hk
      simp [List.lookup] at h
      simp [h]
    · have hb : (k == a) = false := by simpa using hk
      rw [List.lookup, hb] at h
      exact List.mem_cons_of_mem _ (lookup_mem h)

/-- Away from the names inherited from the prototype, the resolution takes
exactly one of the three branches of the policy. -/
theorem resolveModel_three_branches (m : Str) (hm : m ≠ []) (hproto : m ∉ objectPrototypeKeys) :
    (∀ v, MODEL_MAP.lookup m = some v → resolveModel m = JsVal.str v) ∧
    (MODEL_MAP.lookup m = none → JsVal.str m ∈ modelMapValues →
      resolveModel m = JsVal.str m) ∧
    (MODEL_MAP.lookup m = none → JsVal.str m ∉ modelMapValues →
      resolveModel m = JsVal.str DEFAULT_MODEL) := by
  have hreq : requestModelOf m = m := by simp [requestModelOf, hm]
  refine ⟨?_, ?_, ?_⟩
  · intro v hv
    have hmem := lookup_mem hv
    have hne : ∀ kv ∈ MODEL_MAP, kv.2 ≠ [] := by decide
    have hv1 : v ≠ [] := hne _ hmem
    have hv2 : JsVal.str v ∈ modelMapValues := List.mem_map.mpr ⟨(m, v), hmem, rfl⟩
    simp [resolveModel, hreq, modelMapGet, hv, JsVal.truthy, hv1, hv2]
  · intro hn hv
    simp [resolveModel, hreq, modelMapGet, hn, hproto, JsVal.truthy, hv]
  · intro hn hv
    simp [resolveModel, hreq, modelMapGet, hn, hproto, JsVal.truthy, hv]

/-- C8 (the code at a failing input): the alias `constructor` is no key of the
table and no value of it, and still the resolved model is not the default id: it
is the member that the table object inherits under that name. The alias
`gpt-4o-mini` resolves to `openai/gpt-4o-mini`. -/
theorem resolveModel_inherited_name :
    MODEL_MAP.lookup "constructor".toList = none ∧
    JsVal.str "constructor".toList ∉ modelMapValues ∧
    resolveModel "constructor".toList = JsVal.inherited "constructor".toList ∧
    resolveModel "constructor".toList ≠ JsVal.str DEFAULT_MODEL ∧
    resolveModel "gpt-4o-mini".toList = JsVal.str "openai/gpt-4o-mini".toList := by
  decide

/-! ## The prompt normalizer -/

/-- What `trimEnd` removes and what it leaves. -/
theorem trimEnd_spec (s : Str) :
    ∃ ws : Str, s = trimEnd s ++ ws ∧ (∀ c ∈ ws, isJsWhitespace c = true) ∧
      ∀ c, (trimEnd s).getLast? = some c → isJsWhitespace c = false := by
  refine ⟨(s.reverse.takeWhile isJsWhitespace).reverse, ?_, ?_, ?_⟩
  · unfold trimEnd
    rw [← List.reverse_append, List.takeWhile_append_dropWhile, List.reverse_reverse]
  · intro c hc
    exact List.mem_takeWhile_imp (List.mem_reverse.mp hc)
  · intro c hc
    unfold trimEnd at hc
    rw [List.getLast?_reverse] at hc
    have := List.head?_dropWhile_not isJsWhitespace s.reverse
    rw [hc] at this
    simpa using this

theorem foldl_promptStep_fullPrompt (messages : List Message) (acc : PromptAcc) :
    (messages.foldl promptStep acc).fullPrompt =
      acc.fullPrompt ++ (messages.map promptLine).flatten := by
  induction messages generalizing acc with
  | nil => simp
  | cons m ms ih =>
    rw [List.foldl_cons, ih, List.map_cons, List.flatten_cons, ← List.append_assoc]
    congr 1
    unfold promptStep promptLine
    split
    · rfl
    · split
      · rfl
      · split
        · rfl
        · simp

/-- The concatenated prompt is empty or starts with an opening bracket. -/
theorem promptLines_head (messages : List Message) :
    (messages.map promptLine).flatten = [] ∨
      ∃ t, (messages.map promptLine).flatten = '[' :: t := by
  induction messages with
  | nil => exact Or.inl rfl
  | cons m ms ih =>
    rw [List.map_cons, List.flatten_cons]
    unfold promptLine
    split
    · exact Or.inr ⟨_, rfl⟩
    · split
      · exact Or.inr ⟨_, rfl⟩
      · split
        · exact Or.inr ⟨_, rfl⟩
        · simpa using ih

theorem question_eq_trimEnd (messages : List Message) :
    question messages = trimEnd (messages.map promptLine).flatten := by
  unfold question flattenMessages
  rw [foldl_promptStep_fullPrompt]
  simp only [List.nil_append, jsTrim]
  rcases promptLines_head messages with h | ⟨t, h⟩
  · rw [h]; rfl
  · rw [h]
    have : trimStart ('[' :: t) = '[' :: t := by
      unfold trimStart
      rw [List.dropWhile_cons_of_neg (by decide)]
    rw [this]

/-- C9: the prompt is the concatenation, in message order, of one line
`[System]: c\n`, `[User]: c\n` or `[Assistant]: c\n` per message of a recognized
role (nothing for any other role) with its trailing whitespace removed and
nothing else changed; a system message `S` followed by a user message `U` gives
`[System]: S\n[User]: U`, and no message gives the empty prompt. -/
theorem question_is_trimmed_concatenation (messages : List Message) :
    (∃ ws : Str,
      (messages.map promptLine).flatten = question messages ++ ws ∧
      (∀ c ∈ ws, isJsWhitespace c = true) ∧
      ∀ c, (question messages).getLast? = some c → isJsWhitespace c = false) ∧
    question [{ role := "system".toList, content := "S".toList },
              { role := "user".toList, content := "U".toList }] =
      "[System]: S\n[User]: U".toList ∧
    question [] = [] := by
  refine ⟨?_, by decide, by decide⟩
  rw [question_eq_trimEnd]
  exact trimEnd_spec _

theorem promptStep_lastUserMsg (acc : PromptAcc) (m : Message) :
    (promptStep acc m).lastUserMsg =
      if m.role = "user".toList then m.content else acc.lastUserMsg := by
  by_cases hu : m.role = "user".toList
  · have hs : m.role ≠ "system".toList := by rw [hu]; decide
    rw [promptStep, if_neg hs, if_pos hu, if_pos hu]
  · rw [if_neg hu]
    unfold promptStep
    split
    · rfl
    · split <;> rfl

theorem lastUserContent_append_singleton (ms : List Message) (m : Message) :
    lastUserContent (ms ++ [m]) =
      if m.role = "user".toList then some m.content else lastUserContent ms := by
  unfold lastUserContent
  rw [List.filter_append]
  by_cases hu : m.role = "user".toList
  · rw [if_pos hu, List.filter_cons_of_pos (by simpa using hu)]
    simp
  · rw [if_neg hu, List.filter_cons_of_neg (by simpa using hu)]
    simp

theorem foldl_promptStep_lastUserMsg (messages : List Message) :
    (flattenMessages messages).lastUserMsg = (lastUserContent messages).getD [] := by
  induction messages using List.reverseRecOn with
  | nil => rfl
  | append_singleton ms m ih =>
    rw [lastUserContent_append_singleton]
    unfold flattenMessages at *
    rw [List.foldl_append, List.foldl_cons, List.foldl_nil, promptStep_lastUserMsg, ih]
    split <;> rfl

theorem utf16_cons (c : Char) (s : Str) : utf16 (c :: s) = utf16Units c ++ utf16 s := by
  simp [utf16]

theorem utf16Units_bmp (c : Char) (h : c.toNat < 0x10000) : utf16Units c = [c.toNat] := by
  simp [utf16Units, h]

theorem utf16Units_ne_nil (c : Char) : utf16Units c ≠ [] := by
  unfold utf16Units
  split <;> simp

/-- While the characters kept are in the Basic Multilingual Plane, cutting the
code units and cutting the code points agree. -/
theorem take_utf16_of_bmp (n : Nat) (s : Str) (h : ∀ ch ∈ s.take n, ch.toNat < 0x10000) :
    (utf16 s).take n = utf16 (s.take n) := by
  induction s generalizing n with
  | nil => simp [utf16]
  | cons c cs ih =>
    cases n with
    | zero => simp [utf16]
    | succ k =>
      have hc : c.toNat < 0x10000 := h c (by simp)
      rw [List.take_succ_cons, utf16_cons, utf16_cons, utf16Units_bmp c hc,
        List.singleton_append, List.singleton_append, List.take_succ_cons,
        ih k (fun ch hch => h ch (by simp [hch]))]

theorem take_utf16_ne_nil (c : Char) (s : Str) : (utf16 (c :: s)).take 10 ≠ [] := by
  rw [utf16_cons]
  obtain ⟨u, us, hu⟩ := List.exists_cons_of_ne_nil (utf16Units_ne_nil c)
  rw [hu]
  simp

/-- C10 (as stated, refuted): for the single user message of empty content a
user message exists, the truncation of its content is empty, and the title is
the placeholder `Chat`; and for a user message of ten times U+1F600 the title
holds ten code units, which are five of them, not ten. -/
theorem sessionTitle_placeholder_and_units :
    lastUserContent [{ role := "user".toList, content := [] }] = some [] ∧
    sessionTitle [{ role := "user".toList, content := [] }] = utf16 "Chat".toList ∧
    sessionTitle [{ role := "user".toList, content := [] }] ≠ utf16 (List.take 10 ([] : Str)) ∧
    sessionTitle [{ role := "user".toList, content := List.replicate 10 (Char.ofNat 0x1F600) }] =
      utf16 (List.replicate 5 (Char.ofNat 0x1F600)) ∧
    sessionTitle [{ role := "user".toList, content := List.replicate 10 (Char.ofNat 0x1F600) }] ≠
      utf16 (List.take 10 (List.replicate 10 (Char.ofNat 0x1F600))) := by
  decide

/-- C10 (amended): the title is the content of the last user message cut to its
first 10 UTF-16 code units, as `substring(0, 10)` counts them, when a user
message exists and the last one has a non-empty content; that is the content cut
to its first 10 characters when those are all in the Basic Multilingual Plane;
and the title is the placeholder `Chat` when no user message exists or the last
one has an empty content. -/
theorem sessionTitle_spec (messages : List Message) :
    (sessionTitle messages =
      match lastUserContent messages with
      | none => utf16 "Chat".toList
      | some c => if c = [] then utf16 "Chat".toList else (utf16 c).take 10) ∧
    (∀ c : Str, lastUserContent messages = some c → c ≠ [] →
      (∀ ch ∈ c.take 10, ch.toNat < 0x10000) →
      sessionTitle messages = utf16 (c.take 10)) := by
  have main : sessionTitle messages =
      match lastUserContent messages with
      | none => utf16 "Chat".toList
      | some c => if c = [] then utf16 "Chat".toList else (utf16 c).take 10 := by
    unfold sessionTitle
    rw [foldl_promptStep_lastUserMsg]
    cases h : lastUserContent messages with
    | none => rfl
    | some c =>
      cases c with
      | nil => rfl
      | cons a t =>
        simp only [Option.getD_some]
        rw [if_pos (take_utf16_ne_nil a t), if_neg (by simp)]
  refine ⟨main, ?_⟩
  intro c hc hne hbmp
  rw [main, hc]
  simp only [if_neg hne]
  exact take_utf16_of_bmp 10 c hbmp

/-- The title property at a conversation whose last user message is longer than
ten characters and is followed by an assistant message. -/
theorem sessionTitle_spec_witness :
    sessionTitle [{ role := "user".toList, content := "hello world, again".toList },
                  { role := "assistant".toList, content := "hi".toList }] =
      utf16 "hello worl".toList :=
  (sessionTitle_spec [{ role := "user".toList, content := "hello world, again".toList },
                      { role := "assistant".toList, content := "hi".toList }]).2
    "hello world, again".toList (by decide) (by decide) (by decide)

/-! ## The unterminated rest of the stream -/

/-- Every text is a list of newline-free lines, each terminated, and a
newline-free rest. -/
theorem exists_unlines (text : Str) :
    ∃ (lines : List Str) (rest : Str),
      (∀ l ∈ lines, '\n' ∉ l) ∧ '\n' ∉ rest ∧ text = unlines lines rest := by
  induction text with
  | nil => exact ⟨[], [], by simp, by simp, rfl⟩
  | cons c cs ih =>
    obtain ⟨lines, rest, hl, hr, rfl⟩ := ih
    by_cases hc : c = '\n'
    · subst hc
      refine ⟨[] :: lines, rest, ?_, hr, by simp [unlines]⟩
      intro l hmem
      rcases List.mem_cons.mp hmem with rfl | hmem
      · simp
      · exact hl l hmem
    · cases lines with
      | nil =>
        refine ⟨[], c :: rest, by simp, ?_, by simp [unlines]⟩
        simp only [List.mem_cons, not_or]
        exact ⟨fun e => hc e.symm, hr⟩
      | cons l ls =>
        refine ⟨(c :: l) :: ls, rest, ?_, hr, by simp [unlines]⟩
        intro x hmem
        rcases List.mem_cons.mp hmem with rfl | hmem
        · simp only [List.mem_cons, not_or]
          exact ⟨fun e => hc e.symm, hl l (List.mem_cons_self _ _)⟩
        · exact hl x (List.mem_cons_of_mem _ hmem)

theorem dropWhile_append_of_all {p : Char → Bool} (a b : Str) (h : ∀ x ∈ a, p x = true) :
    (a ++ b).dropWhile p = b.dropWhile p := by
  induction a with
  | nil => rfl
  | cons x xs ih =>
    rw [List.cons_append, List.dropWhile_cons_of_pos (h x (List.mem_cons_self _ _))]
    exact ih (fun y hy => h y (List.mem_cons_of_mem _ hy))

/-- The terminated lines alone are a fixed point of the truncation. -/
theorem truncate_terminated (lines : List Str) :
    truncateAfterLastNewline (unlines lines []) = unlines lines [] := by
  unfold truncateAfterLastNewline
  induction lines using List.reverseRecOn with
  | nil => rfl
  | append_singleton ls l _ =>
    have h : unlines (ls ++ [l]) [] = (unlines ls [] ++ l) ++ ['\n'] := by
      simp [unlines]
    rw [h, List.reverse_append, List.reverse_singleton, List.singleton_append,
      List.dropWhile_cons_of_neg (by decide), List.reverse_cons, List.reverse_reverse]

/-- The truncation drops the unterminated rest and nothing else. -/
theorem truncate_unlines (lines : List Str) (rest : Str) (hr : '\n' ∉ rest) :
    truncateAfterLastNewline (unlines lines rest) = unlines lines [] := by
  have h : unlines lines rest = unlines lines [] ++ rest := by simp [unlines]
  have key := truncate_terminated lines
  unfold truncateAfterLastNewline at key ⊢
  rw [h, List.reverse_append, dropWhile_append_of_all _ _ ?_, key]
  intro x hx
  have hx2 : x ∈ rest := List.mem_reverse.mp hx
  have : x ≠ '\n' := fun e => hr (e ▸ hx2)
  simpa using this

/-- C11: after a clean end of the upstream the frames written are those of the
same stream cut just after its last newline, however that cut stream is
delivered; a final `data: x` without its newline writes no chunk, alone or after
a terminated line. -/
theorem unterminated_rest_is_lost (env : Env) (reads cut : List Str)
    (h : cut.flatten = truncateAfterLastNewline reads.flatten) :
    streamFrames env { reads := reads, error := none } =
      streamFrames env { reads := cut, error := none } ∧
    streamFrames env { reads := ["data: x".toList], error := none } = [Frame.done] ∧
    streamFrames env { reads := ["data: a\ndata: x".toList], error := none } =
      [ Frame.chunk
          { id := env.requestId, created := env.clock 0, model := env.requestModel,
            delta := { content := some "a".toList }, finish_reason := none },
        Frame.done ] := by
  refine ⟨?_, rfl, rfl⟩
  obtain ⟨lines, rest, hl, hr, htext⟩ := exists_unlines reads.flatten
  rw [htext, truncate_unlines lines rest hr] at h
  simp only [streamFrames]
  rw [runReads_unlines env reads lines rest hl hr htext,
    runReads_unlines env cut lines [] hl (by simp) h]

/-- The lost-rest property at a stream cut inside its last, unterminated line. -/
theorem unterminated_rest_is_lost_witness :
    streamFrames demoEnv { reads := ["data: a\nda".toList, "ta: x".toList], error := none } =
      streamFrames demoEnv { reads := ["data: ".toList, "a\n".toList], error := none } :=
  (unterminated_rest_is_lost demoEnv ["data: a\nda".toList, "ta: x".toList]
    ["data: ".toList, "a\n".toList] (by decide)).1

end Heck
